import Mathlib

/-!
Verification of the spreadsheet reconciliation engine of QuickSlab
(`src/services/googleSheetsService.js`) and of the batch certificate
lookup (`src/src/controllers/cert.controller.js`).

The JavaScript is embedded shallowly: cell values are `String`s, sheet
windows are `List (List String)`, JavaScript `x.trim()` / `x.toLowerCase()`
are embedded as executable functions over the underlying character lists,
fallible external calls are `Except String` parameters, and the JS idiom
`null`-or-row-number (where `0` is also falsy) is embedded as a `Nat` with
`0` playing the role of `null` exactly where the source relies on falsiness.
-/

namespace QuickSlab

/-- ASCII whitespace recognised when trimming a cell (space, tab, LF, CR). -/
def wsChar (c : Char) : Bool := c == ' ' || c == '\t' || c == '\n' || c == '\r'

/-- Trim whitespace from both ends of a character list. -/
def trimChars (l : List Char) : List Char :=
  ((l.dropWhile wsChar).reverse.dropWhile wsChar).reverse

/-- Embedding of JavaScript `s.trim()`. -/
def jsTrim (s : String) : String := String.mk (trimChars s.data)

/-- ASCII lower-casing of one character (embedding of `toLowerCase` on the
ASCII range actually used by the header synonym tables). -/
def lowerChar (c : Char) : Char :=
  if 65 ≤ c.toNat && c.toNat ≤ 90 then Char.ofNat (c.toNat + 32) else c

/-- Embedding of JavaScript `s.toLowerCase()`. -/
def jsToLower (s : String) : String := String.mk (s.data.map lowerChar)

/-- `norm` from `getHeaderMap` (line 535): `(s || '').toString().trim().toLowerCase()`. -/
def norm (s : String) : String := jsToLower (jsTrim s)

/-- JavaScript cell access `(row[k] || '')` on a sheet row. -/
def cellAt (row : List String) (k : Nat) : String := row.getD k ""

/-- The seven canonical fields supported by the service
(`candidates` array, lines 538-546). -/
inductive Canonical where
  | cardName
  | cardNumber
  | condition
  | gradedFlag
  | company
  | grade
  | certNumber
deriving DecidableEq, Repr

/-- Synonym table from `getHeaderMap` (lines 538-546), verbatim. -/
def synonyms : Canonical → List String
  | .cardName => ["card name", "name", "subject", "title"]
  | .cardNumber => ["card #", "card number", "number", "no", "#"]
  | .condition => ["condition", "status", "graded status"]
  | .gradedFlag => ["graded?", "authenticated", "graded"]
  | .company => ["company", "grading company", "grader"]
  | .grade => ["grade", "numeric grade", "grade (num)"]
  | .certNumber => ["cert", "cert #", "cert number", "certification number"]

/-- The list of all canonical fields, in the order of the `candidates` array. -/
def allCanonicals : List Canonical :=
  [.cardName, .cardNumber, .condition, .gradedFlag, .company, .grade, .certNumber]

/-- Does a cell's normalized text equal some synonym of some field?
(the `candidates.some (c => c.names.some (n => hNorm === n))` test, line 554). -/
def isSynonymCell (s : String) : Bool :=
  allCanonicals.any (fun c => (synonyms c).contains (norm s))

/-- Score of a candidate header row: number of cells matching any synonym
(lines 550-557). -/
def rowScore (row : List String) : Nat := row.countP isSynonymCell

/-- One step of the best-row fold: `if (score > best.score) best = {rIdx, score, row}`.
The state is `(idx, score, headers)` with the score an `Int` because the JS
initial value is `-1`. -/
def bestStep (best : Nat × Int × List String) (p : Nat × List String) :
    Nat × Int × List String :=
  if (rowScore p.2 : Int) > best.2.1 then (p.1, (rowScore p.2 : Int), p.2) else best

/-- `let best = { idx: -1, score: -1, headers: [] }; rows.forEach(...)`
(lines 549-557).  `getHeaderMap` only consults the result on a non-empty
window, where the initial index has already been overwritten (any first row
scores `≥ 0 > -1`), so the initial index value is immaterial; `0` is used
since the index field is a `Nat`. -/
def bestHeaderRow (rows : List (List String)) : Nat × Int × List String :=
  rows.enum.foldl bestStep (0, (-1 : Int), [])

/-- Result of `getHeaderMap` (line 574): headers of the winning row, the
canonical-field → column-index map, and the 1-based header row number. -/
structure HeaderMap where
  headers : List String
  indexByCanonical : Canonical → Option Nat
  headerRow : Nat

/-- First index in a list satisfying a predicate (used both by the embedding
of `headers.forEach` index assignment and by spec-side descriptions of
"the first row such that ..."). -/
def firstIdx {α : Type} (p : α → Bool) : List α → Option Nat
  | [] => none
  | x :: xs => if p x then some 0 else (firstIdx p xs).map (· + 1)

/-- Embedding of `getHeaderMap` (lines 519-579) applied to the fetched
window of up to 10 rows.  The `indexByCanonical` loop assigns each canonical
field the first column whose normalized header text is one of its synonyms
(`if (!(c.canonical in indexByCanonical))` keeps the first match), which is
exactly `firstIdx` over the headers.  The fetch-error path of the source
(`catch` → `null`) is `getHeaderMapE` below. -/
def getHeaderMap (rows : List (List String)) : Option HeaderMap :=
  if rows.isEmpty then none
  else
    let best := bestHeaderRow rows
    if best.2.2.isEmpty then none
    else some
      { headers := best.2.2
        indexByCanonical := fun c =>
          firstIdx (fun h => (synonyms c).contains (norm h)) best.2.2
        headerRow := best.1 + 1 }

/-- `getHeaderMap` including the failure semantics: any fetch error is
converted to `null` (lines 575-578). -/
def getHeaderMapE (fetch : Except String (List (List String))) : Option HeaderMap :=
  match fetch with
  | .error _ => none
  | .ok rows => getHeaderMap rows

/-- Fuel-indexed embedding of the `while (n > 0)` loop of
`columnIndexToLetter` (lines 584-593): prepend `chr(65 + (n-1) % 26)` and
continue with `floor((n-1)/26)`.  The fuel argument only makes the
recursion structural; the loop is entered with `fuel = n`, and since the
next value `(n-1)/26` never exceeds `n-1`, any `fuel ≥ n` computes the
loop's exact result. -/
def colLetterGo : Nat → Nat → List Char → List Char
  | 0, _, acc => acc
  | _ + 1, 0, acc => acc
  | fuel + 1, n + 1, acc => colLetterGo fuel (n / 26) (Char.ofNat (65 + n % 26) :: acc)

/-- Embedding of `columnIndexToLetter(index)` (lines 584-593). -/
def columnIndexToLetter (index : Nat) : String :=
  String.mk (colLetterGo (index + 1) (index + 1) [])

/-- Bijective base-26 value of a letter string (inverse reading used to
prove injectivity of `columnIndexToLetter`). -/
def lettersToNat (l : List Char) : Nat :=
  l.foldl (fun acc c => acc * 26 + (c.toNat - 64)) 0

theorem colLetterGo_append : ∀ (fuel n : Nat) (acc : List Char),
    colLetterGo fuel n acc = colLetterGo fuel n [] ++ acc := by
  intro fuel
  induction fuel with
  | zero => intro n acc; simp [colLetterGo]
  | succ fuel ih =>
    intro n acc
    cases n with
    | zero => simp [colLetterGo]
    | succ n =>
      simp only [colLetterGo]
      rw [ih (n / 26) (Char.ofNat (65 + n % 26) :: acc),
        ih (n / 26) [Char.ofNat (65 + n % 26)]]
      simp

theorem char_ofNat_val : ∀ r < 26, (Char.ofNat (65 + r)).toNat = 65 + r := by decide

theorem lettersToNat_append_single (l : List Char) (c : Char) :
    lettersToNat (l ++ [c]) = lettersToNat l * 26 + (c.toNat - 64) := by
  simp [lettersToNat, List.foldl_append]

theorem lettersToNat_colLetterGo : ∀ (fuel n : Nat), n ≤ fuel →
    lettersToNat (colLetterGo fuel n []) = n := by
  intro fuel
  induction fuel with
  | zero =>
    intro n h
    interval_cases n
    simp [colLetterGo, lettersToNat]
  | succ fuel ih =>
    intro n h
    cases n with
    | zero => simp [colLetterGo, lettersToNat]
    | succ n =>
      simp only [colLetterGo]
      rw [colLetterGo_append, lettersToNat_append_single,
        ih (n / 26) (by omega),
        char_ofNat_val (n % 26) (Nat.mod_lt _ (by omega))]
      omega

theorem colLetterGo_mem_bound : ∀ (fuel n : Nat) (acc : List Char) (c : Char),
    c ∈ colLetterGo fuel n acc → c ∈ acc ∨ (65 ≤ c.toNat ∧ c.toNat ≤ 90) := by
  intro fuel
  induction fuel with
  | zero =>
    intro n acc c h
    simp only [colLetterGo] at h
    exact Or.inl h
  | succ fuel ih =>
    intro n acc c h
    cases n with
    | zero =>
      simp only [colLetterGo] at h
      exact Or.inl h
    | succ n =>
      simp only [colLetterGo] at h
      rcases ih (n / 26) _ c h with h' | h'
      · rcases List.mem_cons.mp h' with rfl | h''
        · refine Or.inr ?_
          rw [char_ofNat_val (n % 26) (Nat.mod_lt _ (by omega))]
          omega
        · exact Or.inl h''
      · exact Or.inr h'

theorem columnIndexToLetter_ne_empty (i : Nat) : columnIndexToLetter i ≠ "" := by
  unfold columnIndexToLetter
  intro h
  have hd : colLetterGo (i + 1) (i + 1) [] = [] := congrArg String.data h
  simp only [colLetterGo] at hd
  rw [colLetterGo_append] at hd
  simp at hd

theorem columnIndexToLetter_inj (i j : Nat)
    (h : columnIndexToLetter i = columnIndexToLetter j) : i = j := by
  have hd : colLetterGo (i + 1) (i + 1) [] = colLetterGo (j + 1) (j + 1) [] :=
    congrArg String.data h
  have h1 := lettersToNat_colLetterGo (i + 1) (i + 1) le_rfl
  have h2 := lettersToNat_colLetterGo (j + 1) (j + 1) le_rfl
  rw [hd, h2] at h1
  omega

/-- C10: `columnIndexToLetter` is the bijective base-26 spreadsheet column
label: 0 ↦ "A", 25 ↦ "Z", 26 ↦ "AA", 27 ↦ "AB"; the result is always a
non-empty string of letters A-Z (ASCII codes 65-90); and distinct indices
map to distinct labels. -/
theorem C10_columnIndexToLetter_bijective_base26 :
    columnIndexToLetter 0 = "A" ∧ columnIndexToLetter 25 = "Z" ∧
    columnIndexToLetter 26 = "AA" ∧ columnIndexToLetter 27 = "AB" ∧
    (∀ i : Nat, columnIndexToLetter i ≠ "" ∧
      ∀ c ∈ (columnIndexToLetter i).data, 65 ≤ c.toNat ∧ c.toNat ≤ 90) ∧
    (∀ i j : Nat, columnIndexToLetter i = columnIndexToLetter j → i = j) := by
  refine ⟨by decide, by decide, by decide, by decide, fun i => ⟨columnIndexToLetter_ne_empty i, ?_⟩,
    columnIndexToLetter_inj⟩
  intro c hc
  have := colLetterGo_mem_bound (i + 1) (i + 1) [] c hc
  simpa using this

/-- Witness for C10: the injectivity part applied at the concrete pair
(3, 3), and the letter-range part applied to the concrete character of
`columnIndexToLetter 1 = "B"`. -/
theorem C10_columnIndexToLetter_bijective_base26_witness :
    (3 : Nat) = 3 ∧ (65 ≤ 'B'.toNat ∧ 'B'.toNat ≤ 90) :=
  ⟨C10_columnIndexToLetter_bijective_base26.2.2.2.2.2 3 3 rfl,
   (C10_columnIndexToLetter_bijective_base26.2.2.2.2.1 1).2 'B' (by decide)⟩

theorem bestStep_nonneg (b : Nat × Int × List String) (p : Nat × List String)
    (hb : b.2.1 = -1) : 0 ≤ (bestStep b p).2.1 := by
  unfold bestStep
  split
  · exact Int.natCast_nonneg _
  · omega

/-- Fold invariant: the best-row state either still is the initial
`(-1, [])` state or records the score of its own headers row. -/
def BestInv (b : Nat × Int × List String) : Prop :=
  b.2.1 = (rowScore b.2.2 : Int) ∨ (b.2.1 = -1 ∧ b.2.2 = [])

theorem foldl_bestStep_inv : ∀ (l : List (Nat × List String)) (b : Nat × Int × List String),
    BestInv b → BestInv (l.foldl bestStep b) := by
  intro l
  induction l with
  | nil => intro b h; exact h
  | cons p l ih =>
    intro b h
    refine ih (bestStep b p) ?_
    unfold bestStep
    split
    · exact Or.inl rfl
    · exact h

theorem foldl_bestStep_score_ge : ∀ (l : List (Nat × List String)) (b : Nat × Int × List String),
    b.2.1 ≤ (l.foldl bestStep b).2.1 := by
  intro l
  induction l with
  | nil => intro b; exact le_rfl
  | cons p l ih =>
    intro b
    refine le_trans ?_ (ih (bestStep b p))
    unfold bestStep
    split
    · rename_i hgt
      exact le_of_lt hgt
    · exact le_rfl

theorem bestHeaderRow_score_nonneg (rows : List (List String)) (h : rows ≠ []) :
    0 ≤ (bestHeaderRow rows).2.1 := by
  unfold bestHeaderRow
  match rows, h with
  | r :: rs, _ =>
    rw [show (r :: rs).enum = (0, r) :: rs.enumFrom 1 from rfl, List.foldl_cons]
    exact le_trans (bestStep_nonneg _ _ rfl) (foldl_bestStep_score_ge _ _)

theorem bestHeaderRow_score_eq (rows : List (List String)) (h : rows ≠ []) :
    (bestHeaderRow rows).2.1 = (rowScore (bestHeaderRow rows).2.2 : Int) := by
  have hinv := foldl_bestStep_inv rows.enum (0, (-1 : Int), []) (Or.inr ⟨rfl, rfl⟩)
  have hge := bestHeaderRow_score_nonneg rows h
  unfold bestHeaderRow at *
  rcases hinv with h' | h'
  · exact h'
  · omega

theorem firstIdx_eq_none {α : Type} (p : α → Bool) (l : List α)
    (h : ∀ x ∈ l, p x = false) : firstIdx p l = none := by
  induction l with
  | nil => rfl
  | cons x xs ih =>
    unfold firstIdx
    rw [h x (List.mem_cons_self x xs)]
    simp only [Bool.false_eq_true, if_false]
    rw [ih fun y hy => h y (List.mem_cons_of_mem x hy)]
    rfl

theorem mem_allCanonicals (c : Canonical) : c ∈ allCanonicals := by
  cases c <;> decide

/-- C3 counterexample: on the window `[["x"]]` the winning row scores 0
(no cell matches any synonym), yet `getHeaderMap` does not return null —
it returns a header map built from that non-empty row.  This refutes the
claim that a best score of 0 always yields null. -/
theorem C3_counterexample_score_zero_not_null :
    (bestHeaderRow [["x"]]).2.1 = 0 ∧ getHeaderMap [["x"]] ≠ none := by
  constructor
  · decide
  · have h : (getHeaderMap [["x"]]).isSome = true := rfl
    intro hn
    rw [hn] at h
    exact Bool.noConfusion h

/-- C3 amended: on a non-empty window whose best synonym-match score is 0,
`getHeaderMap` returns null exactly when the winning row has no cells;
otherwise it returns a header map in which every canonical field is
unmapped (`indexByCanonical` is empty), so the caller falls back to the
legacy default column indices field by field. -/
theorem C3_amended_score_zero_behavior (rows : List (List String)) (hne : rows ≠ [])
    (hscore : (bestHeaderRow rows).2.1 = 0) :
    (getHeaderMap rows = none ↔ (bestHeaderRow rows).2.2 = []) ∧
    (∀ m : HeaderMap, getHeaderMap rows = some m →
      ∀ c : Canonical, m.indexByCanonical c = none) := by
  have hrs : rowScore (bestHeaderRow rows).2.2 = 0 := by
    have := bestHeaderRow_score_eq rows hne
    rw [hscore] at this
    exact_mod_cast this.symm
  have hnosyn : ∀ x ∈ (bestHeaderRow rows).2.2, isSynonymCell x = false := by
    intro x hx
    have := List.countP_eq_zero.mp hrs x hx
    simpa using this
  have hempty : rows.isEmpty = false := by
    cases rows with
    | nil => exact absurd rfl hne
    | cons r rs => rfl
  constructor
  · unfold getHeaderMap
    rw [hempty]
    simp only [Bool.false_eq_true, if_false]
    by_cases h2 : (bestHeaderRow rows).2.2.isEmpty
    · simp [h2, List.isEmpty_iff.mp h2]
    · have h2' : ¬(bestHeaderRow rows).2.2 = [] := fun he => h2 (List.isEmpty_iff.mpr he)
      simp [h2, h2']
  · intro m hm c
    unfold getHeaderMap at hm
    rw [hempty] at hm
    simp only [Bool.false_eq_true, if_false] at hm
    by_cases h2 : (bestHeaderRow rows).2.2.isEmpty
    · simp [h2] at hm
    · simp only [h2, Bool.false_eq_true, if_false, Option.some.injEq] at hm
      subst hm
      refine firstIdx_eq_none _ _ ?_
      intro x hx
      have hns := hnosyn x hx
      unfold isSynonymCell at hns
      by_contra hcontr
      simp only [Bool.not_eq_false] at hcontr
      have : allCanonicals.any (fun c' => (synonyms c').contains (norm x)) = true :=
        List.any_eq_true.mpr ⟨c, mem_allCanonicals c, hcontr⟩
      rw [this] at hns
      exact Bool.noConfusion hns

/-- Witness for C3's amended theorem: a concrete non-empty window scoring
0 whose winning row is non-empty, where the returned map leaves every
canonical field unmapped. -/
theorem C3_amended_score_zero_behavior_witness :
    ((getHeaderMap [["x"]] = none ↔ (bestHeaderRow [["x"]]).2.2 = []) ∧
    (∀ m : HeaderMap, getHeaderMap [["x"]] = some m →
      ∀ c : Canonical, m.indexByCanonical c = none)) :=
  C3_amended_score_zero_behavior [["x"]] (by decide) (by decide)

/-- Whether the single bounded write lands on an existing matched row, a
remembered empty slot, or past the scanned rows (the spec's `WriteTarget.mode`;
in the source the three cases are `targetRow` set inside the loop, `firstEmptyRow`,
and `firstDataRow + rows.length`). -/
inductive WriteMode where
  | update
  | insert
  | append
deriving DecidableEq, Repr

/-- The spec's `WriteTarget`: 1-based row index plus mode. -/
structure WriteTarget where
  row : Nat
  mode : WriteMode
deriving DecidableEq, Repr

/-- Embedding of the row scan of `addCardData` (lines 178-210).  `i` is the
loop counter, `fe` is the JS `firstEmptyRow` where `0` stands for `null`
(the source only tests its falsiness — `if (!firstEmptyRow)` and
`firstEmptyRow || …` — so `null` and `0` behave identically); row numbers
assigned to it are `firstDataRow + i ≥ 2` in every call site.  `certToAdd`
is already trimmed, as at line 176. -/
def scanLoop (firstDataRow nameOff certOff : Nat) (certToAdd : String) :
    List (List String) → Nat → Nat → WriteTarget
  | [], i, fe =>
      if fe ≠ 0 then ⟨fe, .insert⟩ else ⟨firstDataRow + i, .append⟩
  | relRow :: rest, i, fe =>
      let nameCell := jsTrim (cellAt relRow nameOff)
      let certCell := jsTrim (cellAt relRow certOff)
      if certCell ≠ "" then
        if certToAdd ≠ "" ∧ certCell = certToAdd then ⟨firstDataRow + i, .update⟩
        else scanLoop firstDataRow nameOff certOff certToAdd rest (i + 1) fe
      else if nameCell ≠ "" then
        scanLoop firstDataRow nameOff certOff certToAdd rest (i + 1) fe
      else
        scanLoop firstDataRow nameOff certOff certToAdd rest (i + 1)
          (if fe = 0 then firstDataRow + i else fe)

/-- The target-row computation of `addCardData` (lines 163-210): the scan
window starts at the key/identity column minimum, the record's certificate
key is trimmed (line 176), and the loop starts at the first data row with
`firstEmptyRow` null. -/
def findCardTarget (firstDataRow idxCardName idxCert : Nat) (cert : String)
    (rows : List (List String)) : WriteTarget :=
  scanLoop firstDataRow (idxCardName - min idxCardName idxCert)
    (idxCert - min idxCardName idxCert) (jsTrim cert) rows 0 0

/-- C1's described selection, following the claim's words: the first row
whose trimmed key-column cell equals the record's trimmed certificate key is
the UPDATE target; failing that, the first row whose key and identity cells
are both empty is the INSERT target; failing that, append at first data row
plus the number of scanned rows. -/
def claimTarget (firstDataRow idxCardName idxCert : Nat) (cert : String)
    (rows : List (List String)) : WriteTarget :=
  match firstIdx
      (fun r => jsTrim (cellAt r (idxCert - min idxCardName idxCert)) == jsTrim cert)
      rows with
  | some i => ⟨firstDataRow + i, .update⟩
  | none =>
    match firstIdx
        (fun r => (jsTrim (cellAt r (idxCert - min idxCardName idxCert)) == "") &&
          (jsTrim (cellAt r (idxCardName - min idxCardName idxCert)) == ""))
        rows with
    | some i => ⟨firstDataRow + i, .insert⟩
    | none => ⟨firstDataRow + rows.length, .append⟩

/-- Generalisation of `claimTarget` to a running loop state `(i, fe)`, used
to relate the accumulator-style scan to the first-index formulation
(`fe = 0` encodes "no INSERT row remembered yet", as in the source). -/
def claimScan (firstDataRow nameOff certOff : Nat) (key : String)
    (rows : List (List String)) (i fe : Nat) : WriteTarget :=
  match firstIdx (fun r => jsTrim (cellAt r certOff) == key) rows with
  | some j => ⟨firstDataRow + i + j, .update⟩
  | none =>
    if fe = 0 then
      match firstIdx
          (fun r => (jsTrim (cellAt r certOff) == "") && (jsTrim (cellAt r nameOff) == ""))
          rows with
      | some j => ⟨firstDataRow + i + j, .insert⟩
      | none => ⟨firstDataRow + i + rows.length, .append⟩
    else ⟨fe, .insert⟩

theorem writeTarget_eq (a b : Nat) (m : WriteMode) (h : a = b) :
    (⟨a, m⟩ : WriteTarget) = ⟨b, m⟩ := by rw [h]

theorem firstIdx_cons {α : Type} (p : α → Bool) (x : α) (xs : List α) :
    firstIdx p (x :: xs) = if p x then some 0 else (firstIdx p xs).map (· + 1) := rfl

theorem scanLoop_cons (fdr nameOff certOff : Nat) (key : String) (r : List String)
    (rest : List (List String)) (i fe : Nat) :
    scanLoop fdr nameOff certOff key (r :: rest) i fe =
      if jsTrim (cellAt r certOff) ≠ "" then
        if key ≠ "" ∧ jsTrim (cellAt r certOff) = key then ⟨fdr + i, .update⟩
        else scanLoop fdr nameOff certOff key rest (i + 1) fe
      else if jsTrim (cellAt r nameOff) ≠ "" then
        scanLoop fdr nameOff certOff key rest (i + 1) fe
      else
        scanLoop fdr nameOff certOff key rest (i + 1)
          (if fe = 0 then fdr + i else fe) := rfl

theorem claimScan_cons_update (fdr nameOff certOff : Nat) (key : String)
    (r : List String) (rest : List (List String)) (i fe : Nat)
    (hpr : (jsTrim (cellAt r certOff) == key) = true) :
    claimScan fdr nameOff certOff key (r :: rest) i fe = ⟨fdr + i, .update⟩ := by
  unfold claimScan
  rw [firstIdx_cons, hpr]
  simp only [if_true]
  exact writeTarget_eq _ _ _ (by omega)

theorem claimScan_cons_skip (fdr nameOff certOff : Nat) (key : String)
    (r : List String) (rest : List (List String)) (i fe : Nat)
    (hpr : (jsTrim (cellAt r certOff) == key) = false)
    (hqr : ((jsTrim (cellAt r certOff) == "") &&
      (jsTrim (cellAt r nameOff) == "")) = false) :
    claimScan fdr nameOff certOff key (r :: rest) i fe =
      claimScan fdr nameOff certOff key rest (i + 1) fe := by
  unfold claimScan
  rw [firstIdx_cons, firstIdx_cons, hpr, hqr]
  simp only [Bool.false_eq_true, if_false]
  cases hfp : firstIdx (fun r => jsTrim (cellAt r certOff) == key) rest with
  | some j =>
    simp only [hfp, Option.map_some']
    exact writeTarget_eq _ _ _ (by omega)
  | none =>
    simp only [hfp, Option.map_none']
    by_cases hfe : fe = 0
    · simp only [hfe, if_true]
      cases hfq : firstIdx (fun r => (jsTrim (cellAt r certOff) == "") &&
          (jsTrim (cellAt r nameOff) == "")) rest with
      | some j =>
        simp only [hfq, Option.map_some']
        exact writeTarget_eq _ _ _ (by omega)
      | none =>
        simp only [hfq, Option.map_none', List.length_cons]
        exact writeTarget_eq _ _ _ (by omega)
    · simp only [hfe, if_false]

theorem claimScan_cons_empty (fdr nameOff certOff : Nat) (key : String)
    (r : List String) (rest : List (List String)) (i fe : Nat)
    (hfdr : 1 ≤ fdr)
    (hpr : (jsTrim (cellAt r certOff) == key) = false)
    (hqr : ((jsTrim (cellAt r certOff) == "") &&
      (jsTrim (cellAt r nameOff) == "")) = true) :
    claimScan fdr nameOff certOff key (r :: rest) i fe =
      claimScan fdr nameOff certOff key rest (i + 1)
        (if fe = 0 then fdr + i else fe) := by
  unfold claimScan
  rw [firstIdx_cons, firstIdx_cons, hpr, hqr]
  simp only [Bool.false_eq_true, if_false, if_true]
  cases hfp : firstIdx (fun r => jsTrim (cellAt r certOff) == key) rest with
  | some j =>
    simp only [hfp, Option.map_some']
    exact writeTarget_eq _ _ _ (by omega)
  | none =>
    simp only [hfp, Option.map_none']
    have hfe' : ¬(if fe = 0 then fdr + i else fe) = 0 := by
      split <;> omega
    rw [if_neg hfe']
    by_cases hfe : fe = 0
    · simp only [hfe, if_true]
      exact writeTarget_eq _ _ _ (by omega)
    · simp only [hfe, if_false]

theorem scanLoop_eq_claimScan (fdr nameOff certOff : Nat) (key : String)
    (hkey : key ≠ "") (hfdr : 1 ≤ fdr) :
    ∀ (rows : List (List String)) (i fe : Nat),
      scanLoop fdr nameOff certOff key rows i fe =
        claimScan fdr nameOff certOff key rows i fe := by
  intro rows
  induction rows with
  | nil =>
    intro i fe
    by_cases hfe : fe = 0 <;>
      simp [scanLoop, claimScan, firstIdx, hfe]
  | cons r rest ih =>
    intro i fe
    rw [scanLoop_cons]
    by_cases hcert : jsTrim (cellAt r certOff) = ""
    · rw [if_neg (by simpa using hcert)]
      have hpr : (jsTrim (cellAt r certOff) == key) = false := by
        rw [hcert]
        simp only [beq_eq_false_iff_ne, ne_eq]
        exact fun h => hkey h.symm
      by_cases hname : jsTrim (cellAt r nameOff) = ""
      · rw [if_neg (by simpa using hname)]
        rw [ih (i + 1) (if fe = 0 then fdr + i else fe)]
        exact (claimScan_cons_empty fdr nameOff certOff key r rest i fe hfdr hpr
          (by simp [hcert, hname])).symm
      · rw [if_pos (by simpa using hname)]
        rw [ih (i + 1) fe]
        exact (claimScan_cons_skip fdr nameOff certOff key r rest i fe hpr
          (by simp [hname])).symm
    · rw [if_pos (by simpa using hcert)]
      by_cases hmatch : jsTrim (cellAt r certOff) = key
      · rw [if_pos ⟨hkey, hmatch⟩]
        exact (claimScan_cons_update fdr nameOff certOff key r rest i fe
          (by simpa using hmatch)).symm
      · rw [if_neg (by intro h; exact hmatch h.2)]
        rw [ih (i + 1) fe]
        exact (claimScan_cons_skip fdr nameOff certOff key r rest i fe
          (by simpa using hmatch) (by simp [hcert])).symm

/-- C1 counterexample: for a record whose certificate key is empty and a
single scanned row whose key and identity cells are both empty, the claim's
rule makes that row the UPDATE target (its trimmed key cell equals the
record's trimmed key, both empty), but the code selects it as the INSERT
target: the `certCell === certToAdd` comparison is guarded by `certCell`
and `certToAdd` being truthy, so empty never matches empty. -/
theorem C1_counterexample_empty_key_row :
    findCardTarget 2 0 4 "" [["", "", "", "", ""]] ≠
      claimTarget 2 0 4 "" [["", "", "", "", ""]] ∧
    findCardTarget 2 0 4 "" [["", "", "", "", ""]] = ⟨2, .insert⟩ ∧
    claimTarget 2 0 4 "" [["", "", "", "", ""]] = ⟨2, .update⟩ := by
  refine ⟨?_, by decide, by decide⟩
  decide

/-- C1 amended: provided the record's trimmed certificate key is non-empty
(and the first data row index is at least 1, which always holds since it is
header row + 1 ≥ 2), `addCardData` selects exactly one `WriteTarget` by
scanning rows top-to-bottom from the first data row: the first row whose
trimmed key-column cell equals the record's trimmed key is the UPDATE
target; otherwise the first row whose key and identity cells are both empty
is the INSERT target; otherwise append at first data row + scanned row
count.  For an empty key no row is ever an UPDATE match (see C5). -/
theorem C1_target_selection (fdr iName iCert : Nat) (cert : String)
    (rows : List (List String)) (hkey : jsTrim cert ≠ "") (hfdr : 1 ≤ fdr) :
    findCardTarget fdr iName iCert cert rows = claimTarget fdr iName iCert cert rows := by
  unfold findCardTarget claimTarget
  rw [scanLoop_eq_claimScan _ _ _ _ hkey hfdr rows 0 0]
  unfold claimScan
  cases hfp : firstIdx
      (fun r => jsTrim (cellAt r (iCert - min iName iCert)) == jsTrim cert) rows with
  | some j =>
    simp only [hfp]
    exact writeTarget_eq _ _ _ (by omega)
  | none =>
    simp only [hfp, if_pos rfl]
    cases hfq : firstIdx
        (fun r => (jsTrim (cellAt r (iCert - min iName iCert)) == "") &&
          (jsTrim (cellAt r (iName - min iName iCert)) == "")) rows with
    | some j =>
      simp only [hfq]
      exact writeTarget_eq _ _ _ (by omega)
    | none =>
      simp only [hfq]
      exact writeTarget_eq _ _ _ (by omega)

/-- Witness for C1's amended theorem: the spec §8 example — rows with keys
"A", an all-empty row, then "B"; incoming key "B" updates the row of "B"
(row 4), not the empty row before it. -/
theorem C1_target_selection_witness :
    findCardTarget 2 0 4 "B" [["X", "", "", "", "A"], ["", "", "", "", ""], ["Y", "", "", "", "B"]] =
      claimTarget 2 0 4 "B" [["X", "", "", "", "A"], ["", "", "", "", ""], ["Y", "", "", "", "B"]] ∧
    findCardTarget 2 0 4 "B" [["X", "", "", "", "A"], ["", "", "", "", ""], ["Y", "", "", "", "B"]] =
      ⟨4, .update⟩ :=
  ⟨C1_target_selection 2 0 4 "B" _ (by decide) (by decide), by decide⟩

/-- The loop of `addCardData` specialised to an empty (trimmed) certificate
key: the `certToAdd && certCell === certToAdd` guard can never fire, so the
result is the remembered first empty row (INSERT) or the append row. -/
theorem scanLoop_empty_key (fdr nameOff certOff : Nat) (hfdr : 1 ≤ fdr) :
    ∀ (rows : List (List String)) (i fe : Nat),
      scanLoop fdr nameOff certOff "" rows i fe =
        if fe = 0 then
          match firstIdx
              (fun r => (jsTrim (cellAt r certOff) == "") && (jsTrim (cellAt r nameOff) == ""))
              rows with
          | some j => ⟨fdr + i + j, .insert⟩
          | none => ⟨fdr + i + rows.length, .append⟩
        else ⟨fe, .insert⟩ := by
  intro rows
  induction rows with
  | nil =>
    intro i fe
    by_cases hfe : fe = 0 <;> simp [scanLoop, firstIdx, hfe]
  | cons r rest ih =>
    intro i fe
    rw [scanLoop_cons]
    by_cases hcert : jsTrim (cellAt r certOff) = ""
    · rw [if_neg (by simpa using hcert)]
      by_cases hname : jsTrim (cellAt r nameOff) = ""
      · rw [if_neg (by simpa using hname)]
        rw [ih (i + 1) (if fe = 0 then fdr + i else fe)]
        have hqr : ((jsTrim (cellAt r certOff) == "") &&
            (jsTrim (cellAt r nameOff) == "")) = true := by simp [hcert, hname]
        rw [firstIdx_cons, hqr]
        simp only [if_true]
        have hfe' : ¬(if fe = 0 then fdr + i else fe) = 0 := by split <;> omega
        rw [if_neg hfe']
        by_cases hfe : fe = 0
        · simp only [hfe, if_true]
          exact (writeTarget_eq _ _ _ (by omega)).symm
        · simp only [hfe, if_false]
      · rw [if_pos (by simpa using hname)]
        rw [ih (i + 1) fe]
        have hqr : ((jsTrim (cellAt r certOff) == "") &&
            (jsTrim (cellAt r nameOff) == "")) = false := by simp [hname]
        rw [firstIdx_cons, hqr]
        simp only [Bool.false_eq_true, if_false]
        by_cases hfe : fe = 0
        · simp only [hfe, if_true]
          cases hfq : firstIdx (fun r => (jsTrim (cellAt r certOff) == "") &&
              (jsTrim (cellAt r nameOff) == "")) rest with
          | some j =>
            simp only [hfq, Option.map_some']
            exact writeTarget_eq _ _ _ (by omega)
          | none =>
            simp only [hfq, Option.map_none', List.length_cons]
            exact writeTarget_eq _ _ _ (by omega)
        · simp only [hfe, if_false]
    · rw [if_pos (by simpa using hcert)]
      rw [if_neg (by intro h; exact h.1 rfl)]
      rw [ih (i + 1) fe]
      have hqr : ((jsTrim (cellAt r certOff) == "") &&
          (jsTrim (cellAt r nameOff) == "")) = false := by simp [hcert]
      rw [firstIdx_cons, hqr]
      simp only [Bool.false_eq_true, if_false]
      by_cases hfe : fe = 0
      · simp only [hfe, if_true]
        cases hfq : firstIdx (fun r => (jsTrim (cellAt r certOff) == "") &&
            (jsTrim (cellAt r nameOff) == "")) rest with
        | some j =>
          simp only [hfq, Option.map_some']
          exact writeTarget_eq _ _ _ (by omega)
        | none =>
          simp only [hfq, Option.map_none', List.length_cons]
          exact writeTarget_eq _ _ _ (by omega)
      · simp only [hfe, if_false]

/-- C5's described fallback, following the claim's words: the INSERT target
is the first scanned row whose key and identity cells are both empty, else
the append row. -/
def claimInsertTarget (firstDataRow idxCardName idxCert : Nat)
    (rows : List (List String)) : WriteTarget :=
  match firstIdx
      (fun r => (jsTrim (cellAt r (idxCert - min idxCardName idxCert)) == "") &&
        (jsTrim (cellAt r (idxCardName - min idxCardName idxCert)) == ""))
      rows with
  | some i => ⟨firstDataRow + i, .insert⟩
  | none => ⟨firstDataRow + rows.length, .append⟩

/-- C5: for every record whose certificate key is empty after trimming, the
row scan never selects UPDATE mode: the resulting target is always the
INSERT into the first row with both key and identity cells empty, or the
append row.  (The first data row is `headerRow + 1 ≥ 2`, hence `1 ≤ fdr`.) -/
theorem C5_empty_key_never_update (fdr iName iCert : Nat) (cert : String)
    (rows : List (List String)) (hkey : jsTrim cert = "") (hfdr : 1 ≤ fdr) :
    (findCardTarget fdr iName iCert cert rows).mode ≠ WriteMode.update ∧
    findCardTarget fdr iName iCert cert rows =
      claimInsertTarget fdr iName iCert rows := by
  have heq : findCardTarget fdr iName iCert cert rows =
      claimInsertTarget fdr iName iCert rows := by
    unfold findCardTarget claimInsertTarget
    rw [hkey]
    rw [scanLoop_empty_key _ _ _ hfdr rows 0 0]
    simp only [if_pos rfl]
    cases hfq : firstIdx
        (fun r => (jsTrim (cellAt r (iCert - min iName iCert)) == "") &&
          (jsTrim (cellAt r (iName - min iName iCert)) == "")) rows with
    | some j =>
      simp only [hfq]
      exact writeTarget_eq _ _ _ (by omega)
    | none =>
      simp only [hfq]
      exact writeTarget_eq _ _ _ (by omega)
  refine ⟨?_, heq⟩
  rw [heq]
  unfold claimInsertTarget
  cases hfq : firstIdx
      (fun r => (jsTrim (cellAt r (iCert - min iName iCert)) == "") &&
        (jsTrim (cellAt r (iName - min iName iCert)) == "")) rows with
  | some j => simp
  | none => simp

/-- Witness for C5: a record whose key is whitespace only, scanned against
an occupied row (key "A"), a reserved row (identity only) and an empty row:
the empty row (row 5) is chosen, in INSERT mode. -/
theorem C5_empty_key_never_update_witness :
    ((findCardTarget 3 0 4 " " [["X", "", "", "", "A"], ["Held", "", "", "", ""], ["", "", "", "", ""]]).mode ≠
        WriteMode.update ∧
      findCardTarget 3 0 4 " " [["X", "", "", "", "A"], ["Held", "", "", "", ""], ["", "", "", "", ""]] =
        claimInsertTarget 3 0 4 [["X", "", "", "", "A"], ["Held", "", "", "", ""], ["", "", "", "", ""]]) ∧
    findCardTarget 3 0 4 " " [["X", "", "", "", "A"], ["Held", "", "", "", ""], ["", "", "", "", ""]] =
      ⟨5, .insert⟩ :=
  ⟨C5_empty_key_never_update 3 0 4 " " _ (by decide) (by decide), by decide⟩

/-- The `fieldToValue` record of `addCardData` (lines 102-110), after the
JS `||` defaults have been applied to the provider data. -/
structure FieldValues where
  cardName : String
  cardNumber : String
  condition : String
  gradedFlag : String
  company : String
  grade : String
  certNumber : String
deriving DecidableEq, Repr

/-- `setIfPresent` (lines 119-124): write the value at the mapped column
index when the canonical field is mapped, else leave the row unchanged. -/
def setIfPresent (m : HeaderMap) (vals : List String) (c : Canonical) (v : String) :
    List String :=
  match m.indexByCanonical c with
  | some idx => vals.set idx v
  | none => vals

/-- The `valuesRow` construction (lines 113-144): header-aligned when a
header map exists, else the fixed legacy 7-column layout A:G. -/
def buildValuesRow (hm : Option HeaderMap) (fv : FieldValues) : List String :=
  match hm with
  | some m =>
      setIfPresent m (setIfPresent m (setIfPresent m (setIfPresent m (setIfPresent m
        (setIfPresent m (setIfPresent m (List.replicate m.headers.length "")
          .cardName fv.cardName) .cardNumber fv.cardNumber) .condition fv.condition)
          .gradedFlag fv.gradedFlag) .company fv.company) .grade fv.grade)
          .certNumber fv.certNumber
  | none =>
      [fv.cardName, fv.cardNumber, fv.condition, fv.gradedFlag, fv.company,
        fv.grade, fv.certNumber]

/-- `headerMap?.indexByCanonical?.c ?? d` (lines 147-151). -/
def ownedIdx (hm : Option HeaderMap) (c : Canonical) (d : Nat) : Nat :=
  match hm with
  | none => d
  | some m => (m.indexByCanonical c).getD d

/-- `idxCardName` (line 147). -/
def idxCardName (hm : Option HeaderMap) : Nat := ownedIdx hm .cardName 0

/-- `idxCardNumber` (line 148). -/
def idxCardNumber (hm : Option HeaderMap) : Nat := ownedIdx hm .cardNumber 1

/-- `idxCompany` (line 149). -/
def idxCompany (hm : Option HeaderMap) : Nat := ownedIdx hm .company 2

/-- `idxGrade` (line 150). -/
def idxGrade (hm : Option HeaderMap) : Nat := ownedIdx hm .grade 3

/-- `idxCert` (line 151). -/
def idxCert (hm : Option HeaderMap) : Nat := ownedIdx hm .certNumber 4

/-- `writeStartIdx = Math.min(...)` over the five owned columns (line 154). -/
def writeStartIdx (hm : Option HeaderMap) : Nat :=
  min (idxCardName hm) (min (idxCardNumber hm) (min (idxCompany hm)
    (min (idxGrade hm) (idxCert hm))))

/-- `writeEndIdx = Math.max(...)` over the five owned columns (line 155). -/
def writeEndIdx (hm : Option HeaderMap) : Nat :=
  max (idxCardName hm) (max (idxCardNumber hm) (max (idxCompany hm)
    (max (idxGrade hm) (idxCert hm))))

/-- One bounded range write: target row, inclusive column span, payload. -/
structure RangeWrite where
  row : Nat
  startCol : Nat
  endCol : Nat
  values : List String
deriving DecidableEq, Repr

/-- The `writeRow` payload and the single `values.update` call of
`addCardData` (lines 212-225): an array of length `end - start + 1` filled
with `''`, then the five owned values placed at their offsets, written at
`writeStartLetter..writeEndLetter` of the target row. -/
def addCardWrite (hm : Option HeaderMap) (fv : FieldValues) (targetRow : Nat) :
    RangeWrite :=
  { row := targetRow
    startCol := writeStartIdx hm
    endCol := writeEndIdx hm
    values :=
      List.set (List.set (List.set (List.set (List.set
        (List.replicate (writeEndIdx hm - writeStartIdx hm + 1) "")
        (idxCardName hm - writeStartIdx hm) fv.cardName)
        (idxCardNumber hm - writeStartIdx hm) fv.cardNumber)
        (idxCompany hm - writeStartIdx hm) fv.company)
        (idxGrade hm - writeStartIdx hm) fv.grade)
        (idxCert hm - writeStartIdx hm) fv.certNumber }

/-- `firstDataRow = (headerMap?.headerRow || 1) + 1` (line 163). -/
def firstDataRowOf (hm : Option HeaderMap) : Nat :=
  (match hm with
   | none => 1
   | some m => if m.headerRow = 0 then 1 else m.headerRow) + 1

/-- The complete target-row computation of `addCardData` on the scanned
window (lines 163-210). -/
def addCardTargetRow (hm : Option HeaderMap) (fv : FieldValues)
    (scanRows : List (List String)) : WriteTarget :=
  findCardTarget (firstDataRowOf hm) (idxCardName hm) (idxCert hm)
    fv.certNumber scanRows

/-- The cell positions covered by one bounded range write. -/
def writesCell (w : RangeWrite) (r c : Nat) : Prop :=
  r = w.row ∧ w.startCol ≤ c ∧ c < w.startCol + w.values.length

/-- All cell-value writes performed by one `addCardData` call: exactly the
one `values.update` call of lines 220-225 (the later formatting copy pastes
formats and validation rules, not cell values). -/
def addCardDataWrites (hm : Option HeaderMap) (fv : FieldValues)
    (scanRows : List (List String)) : List RangeWrite :=
  [addCardWrite hm fv (addCardTargetRow hm fv scanRows).row]

/-- C4: for every schema, record and scanned window, the write of
`addCardData` covers exactly the contiguous column span from the minimum to
the maximum column index among the five owned fields, at the single target
row; no cell outside that span on any row is written. -/
theorem C4_write_covers_exact_owned_span (hm : Option HeaderMap) (fv : FieldValues)
    (scanRows : List (List String)) (r c : Nat) :
    (∃ w ∈ addCardDataWrites hm fv scanRows, writesCell w r c) ↔
      (r = (addCardTargetRow hm fv scanRows).row ∧
        writeStartIdx hm ≤ c ∧ c ≤ writeEndIdx hm) := by
  have hse : writeStartIdx hm ≤ writeEndIdx hm := by
    unfold writeStartIdx writeEndIdx
    omega
  simp only [addCardDataWrites, List.mem_singleton, exists_eq_left, writesCell,
    addCardWrite, List.length_set, List.length_replicate]
  constructor
  · rintro ⟨h1, h2, h3⟩
    exact ⟨h1, h2, by omega⟩
  · rintro ⟨h1, h2, h3⟩
    exact ⟨h1, h2, by omega⟩

/-- Concrete record used by counterexamples. -/
def fvSample : FieldValues :=
  { cardName := "Pikachu", cardNumber := "25", condition := "Graded"
    gradedFlag := "Y", company := "PSA", grade := "10", certNumber := "12345678" }

/-- C2 counterexample: with no inferred schema, the row actually written by
`addCardData` is not the 7-column A:G row of the claim: the single bounded
write spans columns A-E only (end column index 4, not 6) and its payload is
`[identity, cardNumber, company, grade, key]` — the legacy `valuesRow`
built at lines 134-144 is never passed to the `values.update` call, which
writes `writeRow` (lines 212-225) instead. -/
theorem C2_counterexample_written_row_not_seven_columns :
    (addCardWrite none fvSample 2).endCol ≠ 6 ∧
    (addCardWrite none fvSample 2).values ≠
      ["Pikachu", "25", "Graded", "Y", "PSA", "10", "12345678"] ∧
    (addCardWrite none fvSample 2).values.length = 5 := by
  refine ⟨by decide, by decide, by decide⟩

/-- C2 amended: when schema inference yields no header map, `addCardData`
does build the fixed 7-column candidate row in field order
[identity, cardNumber, condition, authFlag, company, grade, key] — but that
row is dead: the write actually performed covers only columns A-E and
contains `[identity, cardNumber, company, grade, key]`; the condition and
authentication-flag fields are never written on this path. -/
theorem C2_legacy_fallback_row (fv : FieldValues) (targetRow : Nat) :
    buildValuesRow none fv =
      [fv.cardName, fv.cardNumber, fv.condition, fv.gradedFlag, fv.company,
        fv.grade, fv.certNumber] ∧
    (addCardWrite none fv targetRow).startCol = 0 ∧
    (addCardWrite none fv targetRow).endCol = 4 ∧
    (addCardWrite none fv targetRow).values =
      [fv.cardName, fv.cardNumber, fv.company, fv.grade, fv.certNumber] :=
  ⟨rfl, rfl, rfl, rfl⟩

/-- The two `pasteType`s of the formatting copy (lines 638, 660). -/
inductive PasteKind where
  | format
  | dataValidation
deriving DecidableEq, Repr

/-- One `copyPaste` request of the `batchUpdate` issued by
`applyFormattingAndValidation` (lines 619-663): source row, destination
rows, column span (0 to `headers.length`, end exclusive) and paste type. -/
structure CopyRequest where
  sheetId : Nat
  sourceRow : Nat
  destStartRow : Nat
  destEndRow : Nat
  startColIdx : Nat
  endColIdx : Nat
  kind : PasteKind
deriving DecidableEq, Repr

/-- Embedding of `applyFormattingAndValidation` (lines 600-669).  The A1
regex extraction of the updated range's start and end row (lines 604-608)
is passed pre-parsed as `parsed` (`none` for a null range or a string the
regex does not match, both early returns); `sheetIdRes` stands for the
`getSheetIdByName` call and `batchRes` for the `batchUpdate` call, each of
which can throw.  Early returns yield `.ok none` (no copy attempted);
a completed copy yields the pair of requests actually batched. -/
def applyFormattingAndValidation (hm : Option HeaderMap) (parsed : Option (Nat × Nat))
    (sheetIdRes : Except String Nat) (batchRes : Except String Unit) :
    Except String (Option (CopyRequest × CopyRequest)) :=
  match hm with
  | none => .ok none
  | some m =>
    if m.headerRow = 0 then .ok none
    else match parsed with
      | none => .ok none
      | some (startRow, endRow) =>
          if startRow ≤ max (m.headerRow + 1) (startRow - 1) then .ok none
          else match sheetIdRes with
            | .error e => .error e
            | .ok sid =>
              match batchRes with
              | .error e => .error e
              | .ok _ => .ok (some
                  (⟨sid, max (m.headerRow + 1) (startRow - 1), startRow, endRow,
                    0, m.headers.length, .format⟩,
                   ⟨sid, max (m.headerRow + 1) (startRow - 1), startRow, endRow,
                    0, m.headers.length, .dataValidation⟩))

/-- The success object returned by `addCardData` (lines 234-242), reduced
to the fields the claims mention. -/
structure AddResult where
  success : Bool
  updatedRange : RangeWrite
  rowData : List String
deriving DecidableEq, Repr

/-- The tail of `addCardData` after the row scan (lines 212-252): perform
the single bounded write; if it throws, the error propagates (after
code-to-message remapping, lines 244-252, message detail elided); on
success, run `applyFormattingAndValidation` inside `try { .. } catch`
(line 227-232) — its outcome is only logged, never rethrown — and return
the success result.  The second component records the formatting step's
outcome (`none` when the write failed and the step never ran). -/
def addCardData (hm : Option HeaderMap) (fv : FieldValues)
    (scanRows : List (List String)) (writeRes : Except String Unit)
    (sheetIdRes : Except String Nat) (batchRes : Except String Unit) :
    Except String AddResult × Option (Except String (Option (CopyRequest × CopyRequest))) :=
  match writeRes with
  | .error e => (.error e, none)
  | .ok _ =>
      (.ok { success := true
             updatedRange := addCardWrite hm fv (addCardTargetRow hm fv scanRows).row
             rowData := (addCardWrite hm fv (addCardTargetRow hm fv scanRows).row).values },
       some (applyFormattingAndValidation hm
          (some ((addCardTargetRow hm fv scanRows).row, (addCardTargetRow hm fv scanRows).row))
          sheetIdRes batchRes))

/-- C7: after a successful bounded-range write, `addCardData` attempts a
formatting-and-validation copy whose template (source) row is
`max (first data row, target row − 1)` onto the written row, and every
failure of that copy step is captured: the overall operation returns its
success result whatever the copy step's collaborators do. -/
theorem C7_formatting_copy_best_effort :
    (∀ (m : HeaderMap) (s e : Nat) (sid : Except String Nat)
        (batch : Except String Unit) (q : CopyRequest × CopyRequest),
      applyFormattingAndValidation (some m) (some (s, e)) sid batch = .ok (some q) →
        q.1.sourceRow = max (m.headerRow + 1) (s - 1) ∧
        q.2.sourceRow = max (m.headerRow + 1) (s - 1) ∧
        q.1.destStartRow = s ∧ q.1.destEndRow = e ∧
        q.1.kind = .format ∧ q.2.kind = .dataValidation) ∧
    (∀ (hm : Option HeaderMap) (fv : FieldValues) (scanRows : List (List String))
        (sid : Except String Nat) (batch : Except String Unit),
      (addCardData hm fv scanRows (.ok ()) sid batch).1 =
        .ok { success := true
              updatedRange := addCardWrite hm fv (addCardTargetRow hm fv scanRows).row
              rowData := (addCardWrite hm fv (addCardTargetRow hm fv scanRows).row).values }) := by
  constructor
  · intro m s e sid batch q h
    unfold applyFormattingAndValidation at h
    dsimp only at h
    by_cases h0 : m.headerRow = 0
    · rw [if_pos h0] at h
      exact absurd h (by simp)
    · rw [if_neg h0] at h
      by_cases h1 : s ≤ max (m.headerRow + 1) (s - 1)
      · rw [if_pos h1] at h
        exact absurd h (by simp)
      · rw [if_neg h1] at h
        cases sid with
        | error err => exact absurd h (by simp)
        | ok sidv =>
          cases batch with
          | error err => exact absurd h (by simp)
          | ok u =>
            simp only [Except.ok.injEq, Option.some.injEq] at h
            subst h
            exact ⟨rfl, rfl, rfl, rfl, rfl, rfl⟩
  · intro hm fv scanRows sid batch
    rfl

/-- Concrete header map used by witnesses: two headers, header row 1. -/
def hmSample : HeaderMap :=
  { headers := ["a", "b"], indexByCanonical := fun _ => none, headerRow := 1 }

/-- Witness for C7: with header row 1 and a write landing on row 3, the
issued copy requests take row `max 2 2 = 2` as template, and with both
collaborators failing the operation still returns its success result. -/
theorem C7_formatting_copy_best_effort_witness :
    ((⟨7, 2, 3, 3, 0, 2, .format⟩ : CopyRequest).sourceRow =
        max (hmSample.headerRow + 1) (3 - 1) ∧
      (⟨7, 2, 3, 3, 0, 2, .dataValidation⟩ : CopyRequest).sourceRow =
        max (hmSample.headerRow + 1) (3 - 1) ∧
      (⟨7, 2, 3, 3, 0, 2, .format⟩ : CopyRequest).destStartRow = 3 ∧
      (⟨7, 2, 3, 3, 0, 2, .format⟩ : CopyRequest).destEndRow = 3 ∧
      (⟨7, 2, 3, 3, 0, 2, .format⟩ : CopyRequest).kind = .format ∧
      (⟨7, 2, 3, 3, 0, 2, .dataValidation⟩ : CopyRequest).kind = .dataValidation) ∧
    (addCardData none fvSample [] (.ok ()) (.error "denied") (.error "denied")).1 =
      .ok { success := true
            updatedRange := addCardWrite none fvSample (addCardTargetRow none fvSample []).row
            rowData := (addCardWrite none fvSample (addCardTargetRow none fvSample []).row).values } :=
  ⟨C7_formatting_copy_best_effort.1 hmSample 3 3 (.ok 7) (.ok ())
      (⟨7, 2, 3, 3, 0, 2, .format⟩, ⟨7, 2, 3, 3, 0, 2, .dataValidation⟩) rfl,
   C7_formatting_copy_best_effort.2 none fvSample [] (.error "denied") (.error "denied")⟩

/-- The per-instance mutable state of `GoogleSheetsService` relevant to
configuration and the sheet-id cache (constructor, lines 8-15).  `auth` and
`client` record whether `this.auth` / `this.sheets` are non-null. -/
structure ServiceState where
  spreadsheetId : String
  sheetName : String
  auth : Bool
  client : Bool
  sheetIdCache : List (String × Nat)
deriving DecidableEq, Repr

/-- `updateConfig` (lines 295-302): set the new spreadsheet id, set the
sheet name (`sheetName || 'Input Sheet'` — absent or empty falls back),
and null out `auth` and `sheets`.  The `_sheetIdCache` field is not
touched by this method. -/
def updateConfig (st : ServiceState) (spreadsheetId : String)
    (sheetName : Option String) : ServiceState :=
  { st with
    spreadsheetId := spreadsheetId
    sheetName := match sheetName with
      | some s => if s = "" then "Input Sheet" else s
      | none => "Input Sheet"
    auth := false
    client := false }

/-- The JS property read `this._sheetIdCache[name]`. -/
def cacheLookup (cache : List (String × Nat)) (name : String) : Option Nat :=
  (cache.find? (fun p => p.1 == name)).map Prod.snd

/-- The fetch path of `getSheetIdByName` (lines 676-681): it dereferences
`this.sheets` (a TypeError — hence an error — when the client is null,
as it is right after `updateConfig`), asks the metadata for the tab
(`fetch` abstracts `spreadsheets.get` plus the title search; `none` means
the tab is absent and the code throws), and stores the id in the cache. -/
def getSheetIdFetch (st : ServiceState) (fetch : String → Option Nat)
    (name : String) : Except String (Nat × ServiceState) :=
  if st.client = false then .error "not initialized"
  else match fetch name with
    | some id => .ok (id, { st with sheetIdCache := (name, id) :: st.sheetIdCache })
    | none => .error "Sheet tab not found"

/-- `getSheetIdByName` (lines 674-682): `if (this._sheetIdCache[name])
return this._sheetIdCache[name];` — a truthy (present and non-zero) cached
value is returned without any network call; otherwise fetch and cache. -/
def getSheetIdByName (st : ServiceState) (fetch : String → Option Nat)
    (name : String) : Except String (Nat × ServiceState) :=
  match cacheLookup st.sheetIdCache name with
  | some v => if v ≠ 0 then .ok (v, st) else getSheetIdFetch st fetch name
  | none => getSheetIdFetch st fetch name

/-- Concrete pre-`updateConfig` state: the id 42 for tab "Input Sheet" was
cached while the service pointed at spreadsheet "old-spreadsheet". -/
def stSample : ServiceState :=
  { spreadsheetId := "old-spreadsheet", sheetName := "Input Sheet"
    auth := true, client := true, sheetIdCache := [("Input Sheet", 42)] }

/-- C6 counterexample: after `updateConfig` switches the instance to a new
spreadsheet (same tab name), `getSheetIdByName` still answers 42 — the id
cached under the previous configuration — even though the new
configuration's metadata would give 7.  The claim that the cache is
invalidated whenever the configured tab changes is false. -/
theorem C6_counterexample_stale_cache_after_updateConfig :
    getSheetIdByName (updateConfig stSample "new-spreadsheet" (some "Input Sheet"))
        (fun _ => some 7) "Input Sheet" =
      .ok (42, updateConfig stSample "new-spreadsheet" (some "Input Sheet")) ∧
    cacheLookup stSample.sheetIdCache "Input Sheet" = some 42 ∧
    (42 : Nat) ≠ 7 := by
  refine ⟨rfl, rfl, by decide⟩

/-- C6 amended: `updateConfig` does not invalidate the sheet-id cache.  It
resets only the credentials and the client and preserves `_sheetIdCache`
verbatim, so for any tab name already cached with a non-zero id a
subsequent `getSheetIdByName` returns the id cached under the previous
configuration, without consulting the new one. -/
theorem C6_cache_survives_updateConfig (st : ServiceState) (sid : String)
    (name? : Option String) (fetch : String → Option Nat) (name : String) (v : Nat)
    (hv : cacheLookup st.sheetIdCache name = some v) (hnz : v ≠ 0) :
    (updateConfig st sid name?).sheetIdCache = st.sheetIdCache ∧
    (updateConfig st sid name?).auth = false ∧
    (updateConfig st sid name?).client = false ∧
    getSheetIdByName (updateConfig st sid name?) fetch name =
      .ok (v, updateConfig st sid name?) := by
  refine ⟨rfl, rfl, rfl, ?_⟩
  unfold getSheetIdByName
  rw [show cacheLookup (updateConfig st sid name?).sheetIdCache name = some v from hv]
  dsimp only
  rw [if_pos hnz]

/-- Witness for C6's amended theorem at the concrete stale-cache state. -/
theorem C6_cache_survives_updateConfig_witness :
    (updateConfig stSample "new-spreadsheet" (some "Input Sheet")).sheetIdCache =
      stSample.sheetIdCache ∧
    (updateConfig stSample "new-spreadsheet" (some "Input Sheet")).auth = false ∧
    (updateConfig stSample "new-spreadsheet" (some "Input Sheet")).client = false ∧
    getSheetIdByName (updateConfig stSample "new-spreadsheet" (some "Input Sheet"))
        (fun _ => some 7) "Input Sheet" =
      .ok (42, updateConfig stSample "new-spreadsheet" (some "Input Sheet")) :=
  C6_cache_survives_updateConfig stSample "new-spreadsheet" (some "Input Sheet")
    (fun _ => some 7) "Input Sheet" 42 (by decide) (by decide)

/-- The card payload carried by a history entry: either the stored JSON
string parsed successfully, or the partial record rebuilt from the other
columns when parsing fails (lines 427-438). -/
inductive HistCard where
  | parsedJson (json : String)
  | rebuilt (subject cardNumber grade : String)
deriving DecidableEq, Repr

/-- One entry returned by `loadScanHistory` (lines 440-445). -/
structure HistEntry where
  timestamp : String
  certNumber : String
  status : String
  cardData : Option HistCard
deriving DecidableEq, Repr

/-- JavaScript `arr.slice(-limit)`: the last `limit` elements — except that
`-0` is `0`, so `limit = 0` yields the whole array, not an empty one. -/
def jsSliceLast {α : Type} (l : List α) (limit : Nat) : List α :=
  if limit = 0 then l else l.drop (l.length - limit)

/-- The per-row mapping of `loadScanHistory` (lines 423-446).  The JS
destructuring gives `undefined` for missing cells; the embedding uses `""`,
which the guards treat identically (`cardDataJson &&` and
`status === 'success'`).  `jsonOk` abstracts whether `JSON.parse` succeeds
on the stored payload cell. -/
def rowToEntry (jsonOk : String → Bool) (row : List String) : HistEntry :=
  { timestamp := cellAt row 0
    certNumber := cellAt row 1
    status := cellAt row 2
    cardData :=
      if cellAt row 6 ≠ "" ∧ cellAt row 2 = "success" then
        some (if jsonOk (cellAt row 6) then .parsedJson (cellAt row 6)
          else .rebuilt (cellAt row 3) (cellAt row 4) (cellAt row 5))
      else none }

/-- Embedding of `loadScanHistory` (lines 396-452).  `infoRes` abstracts
`getSpreadsheetInfo` (the sheet title list; an error is caught and yields
`[]`), `fetch` abstracts the `values.get` on `'Scan History'!A:G` (an error
likewise yields `[]`).  A missing history tab yields `[]`.  Otherwise the
header row is skipped (`rows.slice(1)`), the last `limit` rows are taken
(`slice(-limit)`), reversed (newest first) and mapped to entries. -/
def loadScanHistory (jsonOk : String → Bool) (limit : Nat)
    (infoRes : Except String (List String))
    (fetch : Except String (List (List String))) : List HistEntry :=
  match infoRes with
  | .error _ => []
  | .ok titles =>
    if titles.contains "Scan History" then
      match fetch with
      | .error _ => []
      | .ok rows => (jsSliceLast (rows.drop 1) limit).reverse.map (rowToEntry jsonOk)
    else []

/-- A history log with a header row and one data row, for the limit-0
counterexample. -/
def histRowsOne : List (List String) :=
  [["Timestamp", "Cert Number", "Status", "Card Name", "Card Number", "Grade", "Full Data"],
   ["t1", "111", "success", "A", "1", "9", "j1"]]

/-- C8 counterexample: the claim quantifies over every limit `k`, but at
`k = 0` the code returns all `n` data rows, not `min 0 n = 0`: JS
`slice(-0)` is `slice(0)`, the whole array.  On a log with one data row,
`load(0)` returns 1 entry. -/
theorem C8_counterexample_limit_zero :
    (loadScanHistory (fun _ => true) 0 (.ok ["Scan History"]) (.ok histRowsOne)).length = 1 ∧
    min 0 (histRowsOne.drop 1).length = 0 := by
  refine ⟨rfl, rfl⟩

/-- C8 amended: for every limit `k ≥ 1` (the HTTP route can only produce
`k ≥ 1`: `parseInt(..) || 50` turns 0 into 50), `loadScanHistory` on a log
with a header row and `n` data rows returns exactly `min k n` entries,
newest first — the mapped last-`k` suffix of the data rows, reversed, with
the header row excluded — and any read error yields `[]` instead of
propagating. -/
theorem C8_load_history_newest_first (jsonOk : String → Bool) (k : Nat)
    (titles : List String) (rows : List (List String)) (hk : 1 ≤ k)
    (htitle : titles.contains "Scan History" = true) :
    (loadScanHistory jsonOk k (.ok titles) (.ok rows)).length =
      min k (rows.drop 1).length ∧
    loadScanHistory jsonOk k (.ok titles) (.ok rows) =
      ((rows.drop 1).drop ((rows.drop 1).length - k)).reverse.map (rowToEntry jsonOk) ∧
    (∀ e : String, loadScanHistory jsonOk k (.ok titles) (.error e) = []) ∧
    (∀ e : String, loadScanHistory jsonOk k (.error e) (.ok rows) = []) := by
  have hslice : jsSliceLast (rows.drop 1) k =
      (rows.drop 1).drop ((rows.drop 1).length - k) := by
    unfold jsSliceLast
    rw [if_neg (by omega)]
  refine ⟨?_, ?_, fun e => ?_, fun e => ?_⟩
  · unfold loadScanHistory
    dsimp only
    rw [if_pos htitle]
    rw [hslice]
    simp only [List.length_map, List.length_reverse, List.length_drop]
    omega
  · unfold loadScanHistory
    dsimp only
    rw [if_pos htitle, hslice]
  · unfold loadScanHistory
    dsimp only
    rw [if_pos htitle]
  · rfl

/-- A history log with a header row and five data rows. -/
def histRowsFive : List (List String) :=
  [["Timestamp", "Cert Number", "Status", "Card Name", "Card Number", "Grade", "Full Data"],
   ["t1", "111", "success", "A", "1", "9", "j1"],
   ["t2", "222", "error", "B", "2", "8", ""],
   ["t3", "333", "success", "C", "3", "7", "j3"],
   ["t4", "444", "success", "D", "4", "6", "j4"],
   ["t5", "555", "success", "E", "5", "5", "j5"]]

/-- Witness for C8's amended theorem: `load(2)` on a log with 5 data rows
returns exactly the entries of data rows 5 and 4, in that order. -/
theorem C8_load_history_newest_first_witness :
    ((loadScanHistory (fun _ => true) 2 (.ok ["Scan History"]) (.ok histRowsFive)).length =
        min 2 (histRowsFive.drop 1).length ∧
      loadScanHistory (fun _ => true) 2 (.ok ["Scan History"]) (.ok histRowsFive) =
        ((histRowsFive.drop 1).drop ((histRowsFive.drop 1).length - 2)).reverse.map
          (rowToEntry (fun _ => true)) ∧
      (∀ e : String,
        loadScanHistory (fun _ => true) 2 (.ok ["Scan History"]) (.error e) = []) ∧
      (∀ e : String,
        loadScanHistory (fun _ => true) 2 (.error e) (.ok histRowsFive) = [])) ∧
    loadScanHistory (fun _ => true) 2 (.ok ["Scan History"]) (.ok histRowsFive) =
      [⟨"t5", "555", "success", some (.parsedJson "j5")⟩,
       ⟨"t4", "444", "success", some (.parsedJson "j4")⟩] :=
  ⟨C8_load_history_newest_first (fun _ => true) 2 ["Scan History"] histRowsFive
      (by decide) (by decide),
   by decide⟩

/-- Result of one certificate lookup as cached by `batchGetCertificates`
(lines 47-52): success with payload, or the caught error message. -/
inductive CertResult where
  | ok (data : String)
  | err (msg : String)
deriving DecidableEq, Repr

/-- `normalized` (line 36): `certNumbers.map(c => c?.toString().trim()).filter(Boolean)`
— trim every key and drop empties. -/
def normalizeCerts (l : List String) : List String :=
  (l.map jsTrim).filter (fun s => s != "")

/-- First-occurrence deduplication with an explicit seen-set, the iteration
order of `Array.from(new Set(normalized))` (line 37). -/
def dedupGo : List String → List String → List String
  | [], _ => []
  | x :: xs, seen =>
      if seen.contains x then dedupGo xs seen else x :: dedupGo xs (x :: seen)

/-- `unique = Array.from(new Set(normalized))` (line 37). -/
def jsSetDedup (l : List String) : List String := dedupGo l []

/-- The combined effect of the worker pool (lines 39-57) on the shared
queue: each `queue.shift()` removes the head exactly once (JS interleaves
the workers only between `await`s, so the dequeue is atomic), the dequeued
key is looked up, and the result — success or caught error — is stored in
the cache under that key.  The pool size (`Math.min(limit, unique.length || 1)`)
changes only the interleaving, not which lookups run nor the final cache. -/
def runWorkers (lookup : String → CertResult) : List String → List (String × CertResult)
  | [] => []
  | c :: queue => (c, lookup c) :: runWorkers lookup queue

/-- What one `batchGetCertificates` call dispatches and returns
(lines 24-66): the dispatched lookups (one per unique key) and the results
array mapped back to the caller's order (line 60), each entry taking the
cached result for its key, with the dead `'Unknown error'` fallback for a
key missing from the cache. -/
structure BatchOutcome where
  dispatched : List String
  results : List (String × CertResult)

/-- Embedding of `batchGetCertificates` (lines 24-66) after request-body
extraction: `lookup` abstracts `psaService.getCertificateData` including
the `try/catch` (line 47-52). -/
def batchGetCertificates (lookup : String → CertResult) (certNumbers : List String) :
    BatchOutcome :=
  { dispatched := (runWorkers lookup (jsSetDedup (normalizeCerts certNumbers))).map Prod.fst
    results := (normalizeCerts certNumbers).map (fun c =>
      (c, (((runWorkers lookup (jsSetDedup (normalizeCerts certNumbers))).find?
          (fun p => p.1 == c)).map Prod.snd).getD (.err "Unknown error"))) }

theorem runWorkers_map_fst (lookup : String → CertResult) :
    ∀ l : List String, (runWorkers lookup l).map Prod.fst = l := by
  intro l
  induction l with
  | nil => rfl
  | cons c queue ih => simp [runWorkers, ih]

theorem find?_runWorkers (lookup : String → CertResult) :
    ∀ (l : List String) (c : String), c ∈ l →
      (runWorkers lookup l).find? (fun p => p.1 == c) = some (c, lookup c) := by
  intro l
  induction l with
  | nil => intro c hc; cases hc
  | cons x xs ih =>
    intro c hc
    unfold runWorkers
    rw [List.find?_cons]
    by_cases hxc : x = c
    · subst hxc
      simp
    · have hbeq : ((x, lookup x).1 == c) = false := by
        simp only [beq_eq_false_iff_ne, ne_eq]
        exact hxc
      rw [hbeq]
      rcases List.mem_cons.mp hc with h | h
      · exact absurd h.symm hxc
      · exact ih c h

theorem mem_dedupGo : ∀ (l seen : List String) (c : String),
    c ∈ dedupGo l seen ↔ (c ∈ l ∧ seen.contains c = false) := by
  intro l
  induction l with
  | nil => intro seen c; simp [dedupGo]
  | cons x xs ih =>
    intro seen c
    unfold dedupGo
    by_cases hx : seen.contains x
    · rw [if_pos hx, ih]
      constructor
      · rintro ⟨hc, hs⟩
        exact ⟨List.mem_cons_of_mem x hc, hs⟩
      · rintro ⟨hc, hs⟩
        rcases List.mem_cons.mp hc with rfl | hmem
        · rw [hx] at hs
          exact Bool.noConfusion hs
        · exact ⟨hmem, hs⟩
    · rw [if_neg hx]
      by_cases hcx : c = x
      · subst hcx
        constructor
        · intro _
          exact ⟨List.mem_cons_self c xs, by simpa using hx⟩
        · intro _
          exact List.mem_cons_self c (dedupGo xs (c :: seen))
      · have hxbeq : (c == x) = false := by
          simp only [beq_eq_false_iff_ne, ne_eq]
          exact hcx
        constructor
        · intro hmem
          rcases List.mem_cons.mp hmem with rfl | hmem'
          · exact absurd rfl hcx
          · have := (ih (x :: seen) c).mp hmem'
            refine ⟨List.mem_cons_of_mem x this.1, ?_⟩
            have hxs := this.2
            simp only [List.contains_cons, Bool.or_eq_false_iff] at hxs
            exact hxs.2
        · rintro ⟨hc, hs⟩
          rcases List.mem_cons.mp hc with rfl | hmem'
          · exact absurd rfl hcx
          · refine List.mem_cons_of_mem x ((ih (x :: seen) c).mpr ⟨hmem', ?_⟩)
            simp only [List.contains_cons, Bool.or_eq_false_iff]
            exact ⟨hxbeq, hs⟩

theorem nodup_dedupGo : ∀ (l seen : List String), (dedupGo l seen).Nodup := by
  intro l
  induction l with
  | nil => intro seen; simp [dedupGo]
  | cons x xs ih =>
    intro seen
    unfold dedupGo
    by_cases hx : seen.contains x
    · rw [if_pos hx]
      exact ih seen
    · rw [if_neg hx]
      refine List.nodup_cons.mpr ⟨?_, ih (x :: seen)⟩
      intro hmem
      have := (mem_dedupGo xs (x :: seen) x).mp hmem
      simp at this

/-- C9: `batchGetCertificates` dispatches the underlying lookup exactly
once per distinct normalized key (the dispatched list has no duplicates and
contains exactly the normalized keys), and the results array has one entry
per normalized input element in the caller's original order, each carrying
the single result computed for its key — duplicates included. -/
theorem C9_batch_dedup_and_fanout (lookup : String → CertResult)
    (certNumbers : List String) :
    (batchGetCertificates lookup certNumbers).dispatched.Nodup ∧
    (∀ c, c ∈ (batchGetCertificates lookup certNumbers).dispatched ↔
      c ∈ normalizeCerts certNumbers) ∧
    (batchGetCertificates lookup certNumbers).results =
      (normalizeCerts certNumbers).map (fun c => (c, lookup c)) := by
  refine ⟨?_, ?_, ?_⟩
  · show ((runWorkers lookup (jsSetDedup (normalizeCerts certNumbers))).map Prod.fst).Nodup
    rw [runWorkers_map_fst]
    exact nodup_dedupGo _ _
  · intro c
    show c ∈ (runWorkers lookup (jsSetDedup (normalizeCerts certNumbers))).map Prod.fst ↔ _
    rw [runWorkers_map_fst]
    unfold jsSetDedup
    rw [mem_dedupGo]
    simp
  · show (normalizeCerts certNumbers).map _ = _
    apply List.map_congr_left
    intro c hc
    have hmem : c ∈ jsSetDedup (normalizeCerts certNumbers) := by
      unfold jsSetDedup
      rw [mem_dedupGo]
      exact ⟨hc, rfl⟩
    rw [find?_runWorkers lookup _ c hmem]
    rfl

/-- Witness for C9 at a concrete input with duplicate and padded keys. -/
theorem C9_batch_dedup_and_fanout_witness :
    ((batchGetCertificates (fun c => .ok c) ["111", " 111", "222", "", "111"]).dispatched.Nodup ∧
      (∀ c, c ∈ (batchGetCertificates (fun c => .ok c) ["111", " 111", "222", "", "111"]).dispatched ↔
        c ∈ normalizeCerts ["111", " 111", "222", "", "111"]) ∧
      (batchGetCertificates (fun c => .ok c) ["111", " 111", "222", "", "111"]).results =
        (normalizeCerts ["111", " 111", "222", "", "111"]).map (fun c => (c, CertResult.ok c))) ∧
    (batchGetCertificates (fun c => .ok c) ["111", " 111", "222", "", "111"]).dispatched =
      ["111", "222"] ∧
    (batchGetCertificates (fun c => .ok c) ["111", " 111", "222", "", "111"]).results =
      [("111", .ok "111"), ("111", .ok "111"), ("222", .ok "222"), ("111", .ok "111")] :=
  ⟨C9_batch_dedup_and_fanout (fun c => .ok c) ["111", " 111", "222", "", "111"],
   by decide, by decide⟩

end QuickSlab
